import Mathlib

/-!
Verification of the "life in weeks" wallpaper generator (`generate.py`).

The script computes, from a birthdate and today's date, a linear week index
into a 52 × 90 grid of cells (rows = week within year, columns = year of
life), classifies each cell as past / current / future, emits one
rectangle-fill drawing command per cell plus labels, saves the image and
optionally sets it as the desktop wallpaper via two OS commands.

This file shallowly embeds the script: the Gregorian-calendar arithmetic of
Python's `datetime.date` (leap years, month lengths, proleptic ordinal,
lexicographic comparison), the date calculations of `main`, the geometry,
the cell classifier of `draw_grid` as a list of drawing commands, and the
side-effecting tail of `main` as explicit traces of filesystem / process /
console events.
-/

namespace Fuse

/-! ## Gregorian calendar, as implemented by Python's `datetime.date` -/

/-- A calendar date, mirroring Python's `datetime.date` triple. -/
@[ext]
structure Date where
  year : Nat
  month : Nat
  day : Nat
deriving DecidableEq, Repr

/-- Gregorian leap-year test (CPython `_is_leap`). -/
def isLeap (y : Nat) : Bool :=
  (y % 4 == 0 && y % 100 != 0) || y % 400 == 0

/-- Number of days in month `m` of year `y` (CPython `_days_in_month`). -/
def daysInMonth (y m : Nat) : Nat :=
  if m = 2 then (if isLeap y then 29 else 28)
  else if m = 4 ∨ m = 6 ∨ m = 9 ∨ m = 11 then 30
  else 31

/-- Number of days in year `y`. -/
def daysInYear (y : Nat) : Nat :=
  if isLeap y then 366 else 365

/-- Days in year `y` strictly before month `m` (CPython `_days_before_month`,
which reads a cumulative table and adds 1 after February of a leap year). -/
def daysBeforeMonth (y m : Nat) : Nat :=
  [0, 0, 31, 59, 90, 120, 151, 181, 212, 243, 273, 304, 334].getD m 0
    + (if 2 < m && isLeap y then 1 else 0)

/-- Days strictly before January 1 of year `y` counted from the proleptic
epoch (CPython `_days_before_year`). -/
def daysBeforeYear (y : Nat) : Nat :=
  365 * (y - 1) + ((y - 1) / 4 - (y - 1) / 100 + (y - 1) / 400)

/-- Proleptic Gregorian ordinal of a date (CPython `date.toordinal`):
day 1 is January 1 of year 1. -/
def toordinal (d : Date) : Nat :=
  daysBeforeYear d.year + daysBeforeMonth d.year d.month + d.day

/-- Validity of a date triple, exactly the checks of CPython `_check_date_fields`:
year in `[1, 9999]`, month in `[1, 12]`, day in `[1, days_in_month]`. -/
def dateValid (d : Date) : Prop :=
  1 ≤ d.year ∧ d.year ≤ 9999 ∧ 1 ≤ d.month ∧ d.month ≤ 12 ∧
    1 ≤ d.day ∧ d.day ≤ daysInMonth d.year d.month

instance (d : Date) : Decidable (dateValid d) := by
  unfold dateValid; infer_instance

/-- Python's `<` on dates: lexicographic on (year, month, day)
(CPython `date._cmp`). -/
def dateLt (a b : Date) : Bool :=
  a.year < b.year
    || (a.year == b.year
        && (a.month < b.month || (a.month == b.month && a.day < b.day)))

/-- Python's `<=` on dates. -/
def dateLe (a b : Date) : Bool :=
  dateLt a b || a == b

/-! ### Calendar lemmas -/

/-- Arithmetic characterisation of Python's `<` on dates. -/
theorem dateLt_iff (a b : Date) :
    dateLt a b = true ↔
      (a.year < b.year ∨ (a.year = b.year ∧
        (a.month < b.month ∨ (a.month = b.month ∧ a.day < b.day)))) := by
  unfold dateLt
  simp [Bool.or_eq_true, Bool.and_eq_true, decide_eq_true_eq]

/-- Arithmetic characterisation of Python's `<=` on dates. -/
theorem dateLe_iff (a b : Date) :
    dateLe a b = true ↔
      (a.year < b.year ∨ (a.year = b.year ∧
        (a.month < b.month ∨ (a.month = b.month ∧ a.day ≤ b.day)))) := by
  unfold dateLe
  rw [Bool.or_eq_true, dateLt_iff, beq_iff_eq, Date.ext_iff]
  omega

/-- The lexicographic date order is total: `not (a < b)` is `b ≤ a`. -/
theorem dateLt_eq_false_iff (a b : Date) :
    dateLt a b = false ↔ dateLe b a = true := by
  rw [dateLe_iff, ← Bool.not_eq_true, dateLt_iff]
  omega

/-- The cumulative days-before-month table steps by the month length. -/
theorem daysBeforeMonth_succ (y m : Nat) (h1 : 1 ≤ m) (h2 : m ≤ 11) :
    daysBeforeMonth y (m + 1) = daysBeforeMonth y m + daysInMonth y m := by
  interval_cases m <;>
    simp [daysBeforeMonth, daysInMonth] <;>
    cases isLeap y <;> simp

/-- The day-of-year of a valid date is at least 1 and at most the year length. -/
theorem dayOfYear_bounds (d : Date) (h : dateValid d) :
    1 ≤ daysBeforeMonth d.year d.month + d.day ∧
      daysBeforeMonth d.year d.month + d.day ≤ daysInYear d.year := by
  obtain ⟨-, -, hm1, hm2, hd1, hd2⟩ := h
  constructor
  · omega
  · have hd2' := hd2
    unfold daysInMonth at hd2'
    unfold daysBeforeMonth daysInYear
    interval_cases h : d.month <;>
      cases hL : isLeap d.year <;>
      simp_all <;> omega

/-- Days-before-year steps by the year length. -/
theorem daysBeforeYear_succ (y : Nat) (hy : 1 ≤ y) :
    daysBeforeYear (y + 1) = daysBeforeYear y + daysInYear y := by
  unfold daysBeforeYear daysInYear isLeap
  have h4 : y / 4 = (y - 1) / 4 + (if y % 4 = 0 then 1 else 0) := by
    by_cases c : y % 4 = 0 <;> simp [c] <;> omega
  have h100 : y / 100 = (y - 1) / 100 + (if y % 100 = 0 then 1 else 0) := by
    by_cases c : y % 100 = 0 <;> simp [c] <;> omega
  have h400 : y / 400 = (y - 1) / 400 + (if y % 400 = 0 then 1 else 0) := by
    by_cases c : y % 400 = 0 <;> simp [c] <;> omega
  simp only [Nat.add_sub_cancel]
  by_cases c4 : y % 4 = 0 <;> by_cases c100 : y % 100 = 0 <;>
    by_cases c400 : y % 400 = 0 <;>
    simp_all <;> omega

/-- Days-before-year is monotone. -/
theorem daysBeforeYear_mono {y1 y2 : Nat} (h1 : 1 ≤ y1) (h : y1 ≤ y2) :
    daysBeforeYear y1 ≤ daysBeforeYear y2 := by
  induction y2 with
  | zero => omega
  | succ n ih =>
    rcases Nat.lt_or_ge y1 (n + 1) with hlt | hge
    · have hn : 1 ≤ n := by omega
      have := ih (by omega)
      rw [daysBeforeYear_succ n hn]
      omega
    · have he : y1 = n + 1 := by omega
      rw [he]

/-- The cumulative days-before-month table is monotone in the month. -/
theorem daysBeforeMonth_mono (y : Nat) {m1 m2 : Nat} (h1 : 1 ≤ m1)
    (h : m1 ≤ m2) (h12 : m2 ≤ 12) :
    daysBeforeMonth y m1 ≤ daysBeforeMonth y m2 := by
  induction m2 with
  | zero => omega
  | succ n ih =>
    rcases Nat.lt_or_ge m1 (n + 1) with hlt | hge
    · have hn1 : 1 ≤ n := by omega
      have := ih (by omega) (by omega)
      rw [daysBeforeMonth_succ y n hn1 (by omega)]
      omega
    · have he : m1 = n + 1 := by omega
      rw [he]

/-- The ordinal of a valid date in year `y` lies strictly between the
year-start offsets of `y` and `y + 1`. -/
theorem toordinal_year_bounds (d : Date) (h : dateValid d) :
    daysBeforeYear d.year < toordinal d ∧
      toordinal d ≤ daysBeforeYear (d.year + 1) := by
  have hb := dayOfYear_bounds d h
  have hy : 1 ≤ d.year := h.1
  rw [daysBeforeYear_succ d.year hy]
  unfold toordinal
  omega

/-- Python date comparison agrees with ordinal comparison: the proleptic
ordinal is strictly monotone for lexicographic order on valid dates. -/
theorem toordinal_lt_of_dateLt {a b : Date}
    (ha : dateValid a) (hb : dateValid b) (h : dateLt a b = true) :
    toordinal a < toordinal b := by
  have hA := toordinal_year_bounds a ha
  have hB := toordinal_year_bounds b hb
  unfold dateLt at h
  simp only [Bool.or_eq_true, Bool.and_eq_true, decide_eq_true_eq, beq_iff_eq] at h
  rcases h with hy | ⟨hy, h⟩
  · have : daysBeforeYear (a.year + 1) ≤ daysBeforeYear b.year :=
      daysBeforeYear_mono (by omega) (by omega)
    omega
  · -- same year: compare within the year
    have hYY : daysBeforeYear a.year = daysBeforeYear b.year := by rw [hy]
    rcases h with hm | ⟨hm, hd⟩
    · -- month strictly smaller: a's day-of-year < b's
      have hm1 : 1 ≤ a.month := ha.2.2.1
      have hm2 : b.month ≤ 12 := hb.2.2.2.1
      have hstep : daysBeforeMonth a.year (a.month + 1)
          = daysBeforeMonth a.year a.month + daysInMonth a.year a.month :=
        daysBeforeMonth_succ a.year a.month hm1 (by omega)
      have hmono : daysBeforeMonth a.year (a.month + 1)
          ≤ daysBeforeMonth a.year b.month :=
        daysBeforeMonth_mono a.year (by omega) (by omega) hm2
      have hm' : daysBeforeMonth a.year b.month = daysBeforeMonth b.year b.month := by
        rw [hy]
      have hda : a.day ≤ daysInMonth a.year a.month := ha.2.2.2.2.2
      have hdb : 1 ≤ b.day := hb.2.2.2.2.1
      unfold toordinal
      omega
    · -- same month, smaller day
      have hBM : daysBeforeMonth a.year a.month = daysBeforeMonth b.year b.month := by
        rw [hy, hm]
      unfold toordinal
      omega

/-- Ordinal monotonicity for `≤`. -/
theorem toordinal_le_of_dateLe {a b : Date}
    (ha : dateValid a) (hb : dateValid b) (h : dateLe a b = true) :
    toordinal a ≤ toordinal b := by
  unfold dateLe at h
  simp only [Bool.or_eq_true, beq_iff_eq] at h
  rcases h with h | h
  · exact Nat.le_of_lt (toordinal_lt_of_dateLt ha hb h)
  · rw [h]

/-! ## The CONFIG section of `generate.py`

The script reads a fixed set of module-level constants.  We bundle them in a
`Config` so that properties quantified over "every configuration" can be
stated; `CONFIG` is the concrete configuration of the source file. -/

structure Config where
  BIRTHDAY : Date
  LIFESPAN_YEARS : Nat
  RESOLUTION : Nat × Nat
  BG_COLOR : String
  PAST_COLOR : String
  FUTURE_COLOR : String
  CURRENT_COLOR : String
  TEXT_COLOR : String
  CELL_SIZE : Nat
  CELL_GAP : Nat
  OUTPUT_PATH : String
  SET_WALLPAPER : Bool
deriving DecidableEq, Repr

/-- The concrete CONFIG values of `generate.py` (`OUTPUT_PATH` is the
`os.path.expanduser` result, kept as the unexpanded string since the home
directory is external). -/
def CONFIG : Config where
  BIRTHDAY := ⟨2005, 4, 6⟩
  LIFESPAN_YEARS := 90
  RESOLUTION := (2560, 1664)
  BG_COLOR := "#111111"
  PAST_COLOR := "#DEDEDE"
  FUTURE_COLOR := "#252525"
  CURRENT_COLOR := "#FF6B35"
  TEXT_COLOR := "#4A4A4A"
  CELL_SIZE := 20
  CELL_GAP := 3
  OUTPUT_PATH := "~/Pictures/life_calendar.png"
  SET_WALLPAPER := true

/-- `COLS = LIFESPAN_YEARS` — years across (horizontal). -/
def COLS (cfg : Config) : Nat := cfg.LIFESPAN_YEARS

/-- `ROWS = 52` — weeks down (vertical). -/
def ROWS : Nat := 52

/-! ## Date calculations of `main`

`main` reads `today = date.today()` and the `BIRTHDAY` constant; we
parametrise both.  Python's `date.replace(year=...)` raises `ValueError`
exactly when the resulting triple is invalid, which the script catches to
substitute day 28 (the Feb 29 case). -/

/-- `BIRTHDAY.replace(year=y)`: `some` of the new date when the triple is a
valid date, `none` when Python would raise `ValueError`. -/
def pyReplaceYear (b : Date) (y : Nat) : Option Date :=
  if dateValid ⟨y, b.month, b.day⟩ then some ⟨y, b.month, b.day⟩ else none

/-- The `try: replace(year=y) / except ValueError: replace(year=y, day=28)`
pattern of `main`, used for both `this_year_birthday` and `last_birthday`.
(The day-28 fallback is modeled unconditionally; Python would re-raise only
for a year outside `[1, 9999]`, which the theorems' validity hypotheses
exclude.) -/
def annivCode (b : Date) (y : Nat) : Date :=
  match pyReplaceYear b y with
  | some d => d
  | none => ⟨y, b.month, 28⟩

/-- ```
try: this_year_birthday = BIRTHDAY.replace(year=today.year)
except ValueError: this_year_birthday = BIRTHDAY.replace(year=today.year, day=28)
``` -/
def this_year_birthday (b t : Date) : Date :=
  annivCode b t.year

/-- `age = today.year - BIRTHDAY.year`, decremented when
`today < this_year_birthday`. -/
def age (b t : Date) : Int :=
  if dateLt t (this_year_birthday b t) then (t.year : Int) - (b.year : Int) - 1
  else (t.year : Int) - (b.year : Int)

/-- `last_birthday`: this year's birthday, or the previous year's when today
precedes this year's (with the same Feb 29 fallback). -/
def last_birthday (b t : Date) : Date :=
  if dateLt t (this_year_birthday b t) then annivCode b (t.year - 1)
  else this_year_birthday b t

/-- `week_of_year = (today - last_birthday).days // 7` (Python `//` is floor
division). -/
def week_of_year (b t : Date) : Int :=
  Int.fdiv ((toordinal t : Int) - (toordinal (last_birthday b t) : Int)) 7

/-- `weeks_past = age * ROWS + week_of_year` (the spec's `grid_weeks_past`). -/
def weeks_past (b t : Date) : Int :=
  age b t * (ROWS : Int) + week_of_year b t

/-- `weeks_lived = (today - BIRTHDAY).days // 7`. -/
def weeks_lived (b t : Date) : Int :=
  Int.fdiv ((toordinal t : Int) - (toordinal b : Int)) 7

/-! ### Anniversary lemmas -/

theorem annivCode_year (b : Date) (y : Nat) : (annivCode b y).year = y := by
  unfold annivCode pyReplaceYear
  by_cases h : dateValid ⟨y, b.month, b.day⟩ <;> simp [h]

theorem annivCode_month (b : Date) (y : Nat) : (annivCode b y).month = b.month := by
  unfold annivCode pyReplaceYear
  by_cases h : dateValid ⟨y, b.month, b.day⟩ <;> simp [h]

/-- Closed form of the `try/except` anniversary construction: for a valid
birthdate and a year in Python's range, the only `ValueError` is Feb 29 in a
non-leap year, where the day becomes 28. -/
theorem annivCode_eq (b : Date) (y : Nat) (hb : dateValid b)
    (h1 : 1 ≤ y) (h2 : y ≤ 9999) :
    annivCode b y =
      ⟨y, b.month,
        if b.month = 2 ∧ b.day = 29 ∧ isLeap y = false then 28 else b.day⟩ := by
  obtain ⟨hby1, hby2, hm1, hm2, hd1, hd2⟩ := hb
  have key : dateValid ⟨y, b.month, b.day⟩ ↔
      ¬(b.month = 2 ∧ b.day = 29 ∧ isLeap y = false) := by
    unfold dateValid
    simp only
    unfold daysInMonth at hd2 ⊢
    by_cases hm : b.month = 2 <;> by_cases hLy : isLeap y <;>
      by_cases hLb : isLeap b.year <;> simp_all <;> omega
  unfold annivCode pyReplaceYear
  by_cases hc : b.month = 2 ∧ b.day = 29 ∧ isLeap y = false
  · have hnv : ¬ dateValid ⟨y, b.month, b.day⟩ := by rw [key]; exact fun h => h hc
    rw [if_neg hnv, if_pos hc]
  · have hv : dateValid ⟨y, b.month, b.day⟩ := key.mpr hc
    rw [if_pos hv]
    simp [hc]

/-- The anniversary construction always yields a valid date. -/
theorem annivCode_valid (b : Date) (y : Nat) (hb : dateValid b)
    (h1 : 1 ≤ y) (h2 : y ≤ 9999) : dateValid (annivCode b y) := by
  rw [annivCode_eq b y hb h1 h2]
  obtain ⟨hby1, hby2, hm1, hm2, hd1, hd2⟩ := hb
  unfold dateValid
  simp only
  unfold daysInMonth at hd2 ⊢
  by_cases hm : b.month = 2 <;> by_cases hLy : isLeap y <;>
    by_cases hLb : isLeap b.year <;> by_cases hd29 : b.day = 29 <;>
    simp_all <;> omega

/-- The anniversary in the birth year is the birthdate itself. -/
theorem annivCode_self (b : Date) (hb : dateValid b) : annivCode b b.year = b := by
  rw [annivCode_eq b b.year hb hb.1 hb.2.1]
  obtain ⟨hby1, hby2, hm1, hm2, hd1, hd2⟩ := hb
  by_cases hc : b.month = 2 ∧ b.day = 29 ∧ isLeap b.year = false
  · exfalso
    unfold daysInMonth at hd2
    simp [hc.1, hc.2.2] at hd2
    omega
  · rw [if_neg hc]

/-! ## Grid geometry of `main` -/

/-- `step = CELL_SIZE + CELL_GAP`. -/
def step (cfg : Config) : Int := (cfg.CELL_SIZE : Int) + (cfg.CELL_GAP : Int)

/-- `grid_w = COLS * step - CELL_GAP`. -/
def grid_w (cfg : Config) : Int := (COLS cfg : Int) * step cfg - (cfg.CELL_GAP : Int)

/-- `grid_h = ROWS * step - CELL_GAP`. -/
def grid_h (cfg : Config) : Int := (ROWS : Int) * step cfg - (cfg.CELL_GAP : Int)

/-! ## The cell classifier and `draw_grid`

`draw_grid` iterates `row` over `range(ROWS)` (week within year) and `col`
over `range(COLS)` (year of life), computes `idx = col * ROWS + row`, picks
the fill color by comparing `idx` against `weeks_past` / `current_week`, and
issues one `draw.rectangle` call per cell.  We embed the emitted sequence of
rectangle-fill commands. -/

/-- One `draw.rectangle([x, y, x2, y2], fill=color)` call. -/
structure RectCmd where
  x0 : Int
  y0 : Int
  x1 : Int
  y1 : Int
  fill : String
deriving DecidableEq, Repr

/-- The temporal status of a cell: the spec's {past, current, future}
enumeration, derived from the comparisons in `draw_grid`. -/
inductive CellStatus where
  | past
  | current
  | future
deriving DecidableEq, Repr

/-- The `if idx < weeks_past / elif idx == current_week / else` chain of
`draw_grid`, abstracted to a status. -/
def cellStatus (wp cw : Int) (idx : Nat) : CellStatus :=
  if (idx : Int) < wp then .past
  else if (idx : Int) = cw then .current
  else .future

/-- The configured fill color for a status. -/
def statusColor (cfg : Config) : CellStatus → String
  | .past => cfg.PAST_COLOR
  | .current => cfg.CURRENT_COLOR
  | .future => cfg.FUTURE_COLOR

/-- The body of the inner loop of `draw_grid` for position `(row, col)`:
`idx = col * ROWS + row`, `x = ox + col*step`, `y = oy + row*step`, the
color chain, and the rectangle call `[x, y, x + CELL_SIZE, y + CELL_SIZE]`. -/
def cellRect (cfg : Config) (ox oy wp cw : Int) (row col : Nat) : RectCmd :=
  let idx := col * ROWS + row
  let x : Int := ox + (col : Int) * step cfg
  let y : Int := oy + (row : Int) * step cfg
  let color := if (idx : Int) < wp then cfg.PAST_COLOR
    else if (idx : Int) = cw then cfg.CURRENT_COLOR
    else cfg.FUTURE_COLOR
  { x0 := x, y0 := y, x1 := x + (cfg.CELL_SIZE : Int), y1 := y + (cfg.CELL_SIZE : Int),
    fill := color }

/-- `draw_grid(draw, ox, oy, weeks_past, current_week)` as the list of
rectangle commands it issues, in loop order (rows outer, cols inner). -/
def draw_grid (cfg : Config) (ox oy wp cw : Int) : List RectCmd :=
  (List.range ROWS).flatMap fun row =>
    (List.range (COLS cfg)).map fun col => cellRect cfg ox oy wp cw row col

/-! ### Trace indexing helper -/

/-- Element `r * m + c` of a row-major flattening of an `n × m` table. -/
theorem range_flatMap_getElem {α : Type} (n m : Nat) (f : Nat → Nat → α)
    (r c : Nat) (hr : r < n) (hc : c < m) :
    ((List.range n).flatMap fun i => (List.range m).map (f i))[r * m + c]?
      = some (f r c) := by
  induction n with
  | zero => omega
  | succ k ih =>
    rw [List.range_succ, List.flatMap_append]
    have hlen : ((List.range k).flatMap fun i => (List.range m).map (f i)).length
        = k * m := by
      rw [List.length_flatMap]
      simp [Function.comp_def]
    rcases Nat.lt_or_ge r k with hrk | hrk
    · rw [List.getElem?_append_left]
      · exact ih hrk
      · rw [hlen]
        calc r * m + c < r * m + m := by omega
          _ = (r + 1) * m := by ring
          _ ≤ k * m := Nat.mul_le_mul_right m (by omega)
    · have hre : r = k := by omega
      subst hre
      rw [List.getElem?_append_right (by rw [hlen]; omega)]
      rw [hlen]
      simp only [List.flatMap_singleton]
      have : r * m + c - r * m = c := by omega
      rw [this, List.getElem?_map, List.getElem?_range hc]
      rfl

/-! ## `draw_year_labels`, title and stats of `main` -/

/-- One abstract drawing command issued against the PIL surface.  The stats
line carries the integers fed to Python's string formatting (the `:,` and
`:.1f` renderings themselves belong to the external formatter). -/
inductive DrawCmd where
  | newImage (w h : Nat) (bg : String)
  | rect (r : RectCmd)
  | text (x y : Int) (s : String) (fill : String) (fontSize : Nat) (fontRes : Nat)
      (anchor : String)
  | statsLine (x y : Int) (weeksL remaining : Int) (lifespan : Nat) (fill : String)
      (fontSize : Nat) (fontRes : Nat) (anchor : String)
deriving DecidableEq, Repr

/-- `for year in range(0, COLS + 1, 10)`: the years 0, 10, …, up to `COLS`. -/
def label_years (cfg : Config) : List Nat :=
  (List.range ((COLS cfg + 10) / 10)).map (· * 10)

/-- `draw_year_labels(draw, ox, oy, font)`: one `draw.text` at
`(ox + year*step, oy - 8)` anchored `"mb"` per labelled year. -/
def draw_year_labels (cfg : Config) (ox oy : Int) (fontRes : Nat) :
    List DrawCmd :=
  (label_years cfg).map fun year =>
    DrawCmd.text (ox + (year : Int) * step cfg) (oy - 8) (toString year)
      cfg.TEXT_COLOR 22 fontRes ("mb")

/-! ## Geometry and the image trace of `main` -/

/-- `top_margin = 120`. -/
def top_margin : Int := 120

/-- `label_margin_top = 50`. -/
def label_margin_top : Int := 50

/-- `bottom_margin = 140`. -/
def bottom_margin : Int := 140

/-- `usable_h = canvas_h - top_margin - label_margin_top - bottom_margin`. -/
def usable_h (cfg : Config) : Int :=
  (cfg.RESOLUTION.2 : Int) - top_margin - label_margin_top - bottom_margin

/-- `ox = (canvas_w - grid_w) // 2`. -/
def origin_x (cfg : Config) : Int :=
  Int.fdiv ((cfg.RESOLUTION.1 : Int) - grid_w cfg) 2

/-- `oy = top_margin + label_margin_top + (usable_h - grid_h) // 2`. -/
def origin_y (cfg : Config) : Int :=
  top_margin + label_margin_top + Int.fdiv (usable_h cfg - grid_h cfg) 2

/-- The resources `load_font` resolves, one per requested pixel size.  Which
font file wins depends on the machine's filesystem, which is external; the
environment maps a size to the identity of the resolved resource. -/
structure RunEnv where
  fonts : Nat → Nat
  abspath : String → String
  rc1 : Int
  rc2 : Int

/-- Everything `main` draws onto the image, in program order: the canvas,
the grid cells, the year labels, the title, the stats line. -/
def mainImage (cfg : Config) (t : Date) (fonts : Nat → Nat) : List DrawCmd :=
  let wl := weeks_lived cfg.BIRTHDAY t
  let wp := weeks_past cfg.BIRTHDAY t
  let total : Int := (ROWS : Int) * (COLS cfg : Int)
  let ox := origin_x cfg
  let oy := origin_y cfg
  DrawCmd.newImage cfg.RESOLUTION.1 cfg.RESOLUTION.2 cfg.BG_COLOR ::
    ((draw_grid cfg ox oy wp wp).map DrawCmd.rect
      ++ draw_year_labels cfg ox oy (fonts 22)
      ++ [DrawCmd.text (Int.fdiv (cfg.RESOLUTION.1 : Int) 2) 90 "life  in  weeks"
            cfg.TEXT_COLOR 36 (fonts 36) "mm",
          DrawCmd.statsLine (Int.fdiv (cfg.RESOLUTION.1 : Int) 2)
            (oy + grid_h cfg + 60) wl (total - wl) cfg.LIFESPAN_YEARS
            cfg.TEXT_COLOR 22 (fonts 22) "mm"])

/-! ## Output sink and wallpaper step of `main` -/

/-- A filesystem operation on the output path. -/
inductive FsOp where
  | makedirs (dir : String) (exist_ok : Bool)
  | savePng (path : String)
  | remove (path : String)
deriving DecidableEq, Repr

/-- `os.path.dirname` for POSIX paths (modeled: everything before the last
separator). -/
def dirname (p : String) : String :=
  match (p.splitOn ("/")).dropLast with
  | [] => ""
  | parts => String.intercalate ("/") parts

/-- The filesystem operations `main` performs on the output path, in program
order: `os.makedirs(os.path.dirname(OUTPUT_PATH), exist_ok=True)` at entry,
`img.save(OUTPUT_PATH, "PNG")` at the end. -/
def mainFsTrace (cfg : Config) : List FsOp :=
  [FsOp.makedirs (dirname cfg.OUTPUT_PATH) true, FsOp.savePng cfg.OUTPUT_PATH]

/-- A process-and-console event of the wallpaper-setting tail. -/
inductive Event where
  | runOsascript (script : String)
  | printMsg (msg : String)
deriving DecidableEq, Repr

/-- The primary AppleScript (`Finder`) built around the absolute path. -/
def finderScript (abs_path : String) : String :=
  "tell application \"Finder\" to set desktop picture to POSIX file \""
    ++ abs_path ++ "\""

/-- The fallback AppleScript (`System Events`). -/
def systemEventsScript (abs_path : String) : String :=
  "tell application \"System Events\" to tell every desktop to set picture to \""
    ++ abs_path ++ "\""

/-- The `if SET_WALLPAPER:` tail of `main`, as the events it produces given
the return codes of the two `subprocess.run` calls (`check` is not set, so a
non-zero code is returned, not raised). -/
def wallpaperStep (abs_path : String) (rc1 rc2 : Int) : List Event :=
  Event.runOsascript (finderScript abs_path) ::
    (if rc1 = 0 then [Event.printMsg ("Wallpaper set.")]
     else Event.runOsascript (systemEventsScript abs_path) ::
       (if rc2 = 0 then [Event.printMsg ("Wallpaper set.")]
        else [Event.printMsg
                "Could not auto-set wallpaper — set it manually in System Settings > Wallpaper",
              Event.printMsg ("File is at: " ++ abs_path)]))

/-- One whole run of `main`: the image drawing trace, the filesystem trace,
and the wallpaper-step events (empty when `SET_WALLPAPER` is off). -/
def mainRun (cfg : Config) (t : Date) (env : RunEnv) :
    List DrawCmd × List FsOp × List Event :=
  (mainImage cfg t env.fonts,
   mainFsTrace cfg,
   if cfg.SET_WALLPAPER then
     wallpaperStep (env.abspath cfg.OUTPUT_PATH) env.rc1 env.rc2
   else [])

/-! ## Date-calculation lemmas -/

/-- The spec's `completed_years_of_age`: the number of full birthday
anniversaries passed, an anniversary being the `try/except`-constructed date
in each year after the birth year. -/
def completed_anniversaries (b t : Date) : Nat :=
  ((Finset.Icc (b.year + 1) t.year).filter
    fun y => dateLe (annivCode b y) t = true).card

theorem anniv_le_of_year_lt (b t : Date) (y : Nat) (hy : y < t.year) :
    dateLe (annivCode b y) t = true := by
  rw [dateLe_iff, annivCode_year]
  exact Or.inl hy

/-- When today precedes this year's anniversary, the birth year is strictly
earlier than today's year. -/
theorem birth_year_lt_of_before_anniv (b t : Date) (hb : dateValid b)
    (hle : dateLe b t = true) (h : dateLt t (this_year_birthday b t) = true) :
    b.year < t.year := by
  have hyy : b.year ≤ t.year := by
    rw [dateLe_iff] at hle; omega
  rcases Nat.lt_or_ge b.year t.year with hlt | hge
  · exact hlt
  · exfalso
    have he : t.year = b.year := by omega
    unfold this_year_birthday at h
    rw [he, annivCode_self b hb] at h
    rw [← dateLt_eq_false_iff] at hle
    rw [hle] at h
    exact Bool.false_ne_true h

/-- `age` as computed by `main` equals the count of completed anniversaries. -/
theorem age_eq_completed_anniversaries (b t : Date) (hb : dateValid b)
    (_ht : dateValid t) (hle : dateLe b t = true) :
    age b t = (completed_anniversaries b t : Int) := by
  have hyy : b.year ≤ t.year := by
    rw [dateLe_iff] at hle; omega
  unfold age completed_anniversaries this_year_birthday
  rcases Nat.eq_or_lt_of_le hyy with he | hlt
  · -- same year: no anniversary year in range, and today is not before
    -- this year's anniversary (which is the birthdate itself)
    have hb' : annivCode b t.year = b := by rw [← he, annivCode_self b hb]
    have hlt' : dateLt t (annivCode b t.year) = false := by
      rw [hb', dateLt_eq_false_iff]; exact hle
    rw [hlt']
    have : Finset.Icc (b.year + 1) t.year = ∅ := by
      rw [Finset.Icc_eq_empty_iff]; omega
    rw [this]
    simp [he]
  · -- t.year > b.year: split the count at today's year
    have hsplit : Finset.Icc (b.year + 1) t.year
        = insert t.year (Finset.Icc (b.year + 1) (t.year - 1)) := by
      have h' := Nat.Icc_insert_succ_right (a := b.year + 1) (b := t.year - 1)
        (by omega)
      have he : t.year - 1 + 1 = t.year := by omega
      rw [he] at h'
      rw [h']
    have hall : Finset.filter (fun y => dateLe (annivCode b y) t = true)
        (Finset.Icc (b.year + 1) (t.year - 1))
        = Finset.Icc (b.year + 1) (t.year - 1) := by
      apply Finset.filter_true_of_mem
      intro y hy
      rw [Finset.mem_Icc] at hy
      exact anniv_le_of_year_lt b t y (by omega)
    have hnotmem : t.year ∉ Finset.Icc (b.year + 1) (t.year - 1) := by
      rw [Finset.mem_Icc]; omega
    rw [hsplit, Finset.filter_insert]
    by_cases hT : dateLe (annivCode b t.year) t = true
    · have hlt' : dateLt t (annivCode b t.year) = false := by
        rw [dateLt_eq_false_iff]; exact hT
      rw [if_pos hT, hlt']
      rw [Finset.card_insert_of_not_mem (by rw [hall]; exact hnotmem), hall,
        Nat.card_Icc]
      simp
      omega
    · have hlt' : dateLt t (annivCode b t.year) = true := by
        rcases Bool.eq_false_or_eq_true (dateLt t (annivCode b t.year)) with h1 | h0
        · exact h1
        · exfalso; rw [dateLt_eq_false_iff] at h0; exact hT h0
      rw [if_neg hT, hlt', hall, Nat.card_Icc]
      simp
      omega

/-- The last birthday computed by `main` is a valid date not after today. -/
theorem last_birthday_le (b t : Date) (hb : dateValid b) (ht : dateValid t)
    (hle : dateLe b t = true) :
    dateValid (last_birthday b t) ∧ dateLe (last_birthday b t) t = true := by
  unfold last_birthday
  by_cases h : dateLt t (this_year_birthday b t) = true
  · rw [if_pos h]
    have hby : b.year < t.year := birth_year_lt_of_before_anniv b t hb hle h
    have hy1 : 1 ≤ t.year - 1 := by have := hb.1; omega
    have hy2 : t.year - 1 ≤ 9999 := by have := ht.2.1; omega
    refine ⟨annivCode_valid b (t.year - 1) hb hy1 hy2, ?_⟩
    rw [dateLe_iff, annivCode_year]
    left
    omega
  · rw [if_neg h]
    have h' : dateLt t (this_year_birthday b t) = false := by
      rcases Bool.eq_false_or_eq_true (dateLt t (this_year_birthday b t)) with h1 | h0
      · exact absurd h1 h
      · exact h0
    rw [dateLt_eq_false_iff] at h'
    exact ⟨annivCode_valid b t.year hb ht.1 ht.2.1, h'⟩

theorem age_nonneg (b t : Date) (hb : dateValid b) (ht : dateValid t)
    (hle : dateLe b t = true) : 0 ≤ age b t := by
  rw [age_eq_completed_anniversaries b t hb ht hle]
  exact Int.natCast_nonneg _

theorem week_of_year_nonneg (b t : Date) (hb : dateValid b) (ht : dateValid t)
    (hle : dateLe b t = true) : 0 ≤ week_of_year b t := by
  obtain ⟨hv, hl⟩ := last_birthday_le b t hb ht hle
  have := toordinal_le_of_dateLe hv ht hl
  unfold week_of_year
  rw [Int.fdiv_eq_ediv _ (by norm_num)]
  omega

/-- Consecutive anniversaries are at most 366 days apart. -/
theorem anniv_gap (b : Date) (T : Nat) (hb : dateValid b)
    (h2 : 2 ≤ T) (h9999 : T ≤ 9999) :
    toordinal (annivCode b T) ≤ toordinal (annivCode b (T - 1)) + 366 := by
  rw [annivCode_eq b T hb (by omega) h9999,
    annivCode_eq b (T - 1) hb (by omega) (by omega)]
  have hstep : daysBeforeYear T = daysBeforeYear (T - 1) + daysInYear (T - 1) := by
    have h' := daysBeforeYear_succ (T - 1) (by omega)
    have he : T - 1 + 1 = T := by omega
    rw [he] at h'
    exact h'
  unfold toordinal
  simp only
  rw [hstep]
  unfold daysInYear daysBeforeMonth
  by_cases hm2 : b.month = 2 <;> by_cases hd29 : b.day = 29 <;>
    by_cases hgt : 2 < b.month <;> by_cases hLT : isLeap T <;>
    by_cases hLT1 : isLeap (T - 1) <;>
    simp_all <;> first
    | omega
    | (split_ifs <;> omega)

/-- Today is at most 365 days after the last birthday. -/
theorem days_since_last_birthday_le (b t : Date) (hb : dateValid b)
    (ht : dateValid t) (hle : dateLe b t = true) :
    (toordinal t : Int) ≤ (toordinal (last_birthday b t) : Int) + 365 := by
  unfold last_birthday
  by_cases h : dateLt t (this_year_birthday b t) = true
  · rw [if_pos h]
    have hby : b.year < t.year := birth_year_lt_of_before_anniv b t hb hle h
    have h2 : 2 ≤ t.year := by have := hb.1; omega
    have h9999 : t.year ≤ 9999 := ht.2.1
    have hgap := anniv_gap b t.year hb h2 h9999
    have htyb : dateValid (this_year_birthday b t) :=
      annivCode_valid b t.year hb ht.1 h9999
    have hlt := toordinal_lt_of_dateLt ht htyb h
    unfold this_year_birthday at hlt
    omega
  · rw [if_neg h]
    have h' : dateLt t (this_year_birthday b t) = false := by
      rcases Bool.eq_false_or_eq_true (dateLt t (this_year_birthday b t)) with h1 | h0
      · exact absurd h1 h
      · exact h0
    have htyb : dateValid (this_year_birthday b t) :=
      annivCode_valid b t.year hb ht.1 ht.2.1
    have hyb := toordinal_year_bounds (this_year_birthday b t) htyb
    have hyt := toordinal_year_bounds t ht
    have hyear : (this_year_birthday b t).year = t.year := annivCode_year b t.year
    rw [hyear] at hyb
    have hsucc : daysBeforeYear (t.year + 1)
        = daysBeforeYear t.year + daysInYear t.year :=
      daysBeforeYear_succ t.year ht.1
    have hdy : daysInYear t.year ≤ 366 := by
      unfold daysInYear; split <;> omega
    unfold this_year_birthday at hyb ⊢
    omega

theorem week_of_year_le_52 (b t : Date) (hb : dateValid b) (ht : dateValid t)
    (hle : dateLe b t = true) : week_of_year b t ≤ 52 := by
  have := days_since_last_birthday_le b t hb ht hle
  unfold week_of_year
  rw [Int.fdiv_eq_ediv _ (by norm_num)]
  omega

/-! ## Grid-classification lemmas -/

/-- All `(row, col)` grid positions. -/
def gridCells (cfg : Config) : Finset (Nat × Nat) :=
  Finset.range ROWS ×ˢ Finset.range (COLS cfg)

/-- The grid positions classified `current` when `weeks_past` and
`current_week` are both `wp` (as `main` passes them). -/
def currentCells (cfg : Config) (wp : Int) : Finset (Nat × Nat) :=
  (gridCells cfg).filter fun p => cellStatus wp wp (p.2 * ROWS + p.1) = .current

theorem cellStatus_eq_current_iff (wp : Int) (idx : Nat) :
    cellStatus wp wp idx = .current ↔ (idx : Int) = wp := by
  by_cases h1 : (idx : Int) < wp
  · simp only [cellStatus, if_pos h1]
    constructor
    · intro hc; cases hc
    · omega
  · by_cases h2 : (idx : Int) = wp <;>
      simp [cellStatus, h1, h2]

theorem currentCells_eq (cfg : Config) (wp : Int) :
    currentCells cfg wp =
      if 0 ≤ wp ∧ wp < (ROWS : Int) * (COLS cfg : Int)
      then {(wp.toNat % ROWS, wp.toNat / ROWS)} else ∅ := by
  ext p
  rcases p with ⟨r, c⟩
  simp only [currentCells, gridCells, cellStatus_eq_current_iff,
    Finset.mem_filter, Finset.mem_product, Finset.mem_range,
    Finset.mem_singleton, Finset.not_mem_empty, Prod.mk.injEq, ROWS]
  split
  · simp only [Finset.mem_singleton, Prod.mk.injEq]
    push_cast
    omega
  · simp only [Finset.not_mem_empty, iff_false, not_and]
    push_cast at *
    omega

/-! ## Claim theorems -/

/-- C1: for every grid cell at `(row, col)` with linear index
`idx = col*52 + row`, the classifier assigns `past` if `idx < grid_weeks_past`,
`current` if `idx == grid_weeks_past`, `future` otherwise, and the fill color
passed to the rectangle-draw call (the command at row-major position
`row*COLS + col` of the `draw_grid` trace) is the configured
past/current/future color accordingly. -/
theorem claim_grid_cell_classification (cfg : Config) (ox oy wp : Int)
    (row col : Nat) (hr : row < ROWS) (hc : col < COLS cfg) :
    (draw_grid cfg ox oy wp wp)[row * COLS cfg + col]?
        = some (cellRect cfg ox oy wp wp row col)
    ∧ cellStatus wp wp (col * 52 + row)
        = (if ((col * 52 + row : Nat) : Int) < wp then CellStatus.past
           else if ((col * 52 + row : Nat) : Int) = wp then CellStatus.current
           else CellStatus.future)
    ∧ (cellRect cfg ox oy wp wp row col).fill
        = statusColor cfg (cellStatus wp wp (col * 52 + row)) := by
  refine ⟨?_, rfl, ?_⟩
  · unfold draw_grid
    exact range_flatMap_getElem ROWS (COLS cfg) _ row col hr hc
  · simp only [cellRect, cellStatus, statusColor, ROWS]
    split_ifs <;> rfl

theorem claim_grid_cell_classification_witness :
    (0 < ROWS ∧ 0 < COLS CONFIG)
    ∧ (cellRect CONFIG 0 0 5 5 0 0).fill
        = statusColor CONFIG (cellStatus 5 5 (0 * 52 + 0)) :=
  ⟨⟨by decide, by decide⟩,
    (claim_grid_cell_classification CONFIG 0 0 5 0 0 (by decide) (by decide)).2.2⟩

/-- C2: `grid_weeks_past` equals
`completed_years_of_age * 52 + floor((today - last_birthday) in days / 7)`,
where `completed_years_of_age` counts full birthday anniversaries passed; in
particular, for birthdate 2005-04-06 and today 2025-04-06 (exact
anniversary) it yields `age = 20`, `week_of_year = 0`,
`grid_weeks_past = 1040`. -/
theorem claim_grid_weeks_past_formula :
    (∀ b t : Date, dateValid b → dateValid t → dateLe b t = true →
        age b t = (completed_anniversaries b t : Int)
        ∧ weeks_past b t = (completed_anniversaries b t : Int) * 52
            + Int.fdiv ((toordinal t : Int) - (toordinal (last_birthday b t) : Int)) 7)
    ∧ age ⟨2005, 4, 6⟩ ⟨2025, 4, 6⟩ = 20
    ∧ week_of_year ⟨2005, 4, 6⟩ ⟨2025, 4, 6⟩ = 0
    ∧ weeks_past ⟨2005, 4, 6⟩ ⟨2025, 4, 6⟩ = 1040 := by
  refine ⟨fun b t hb ht hle => ?_, by decide, by decide, by decide⟩
  have hage := age_eq_completed_anniversaries b t hb ht hle
  refine ⟨hage, ?_⟩
  unfold weeks_past week_of_year
  rw [hage, show ((ROWS : Nat) : Int) = 52 from rfl]

theorem claim_grid_weeks_past_formula_witness :
    (dateValid ⟨2005, 4, 6⟩ ∧ dateValid ⟨2025, 4, 6⟩
      ∧ dateLe ⟨2005, 4, 6⟩ ⟨2025, 4, 6⟩ = true)
    ∧ age ⟨2005, 4, 6⟩ ⟨2025, 4, 6⟩
        = (completed_anniversaries ⟨2005, 4, 6⟩ ⟨2025, 4, 6⟩ : Int) :=
  ⟨⟨by decide, by decide, by decide⟩,
    (claim_grid_weeks_past_formula.1 _ _ (by decide) (by decide) (by decide)).1⟩

/-- C3: over the whole grid, at most one cell is `current`: exactly one when
`grid_weeks_past` lies in `[0, rows*cols)`; when `grid_weeks_past ≥ rows*cols`
every cell is `past`; when `grid_weeks_past` is negative every cell is
`future`. -/
theorem claim_current_cell_uniqueness (cfg : Config) (wp : Int) :
    (currentCells cfg wp).card ≤ 1
    ∧ (0 ≤ wp → wp < (ROWS : Int) * (COLS cfg : Int) →
        (currentCells cfg wp).card = 1)
    ∧ ((ROWS : Int) * (COLS cfg : Int) ≤ wp →
        ∀ p ∈ gridCells cfg, cellStatus wp wp (p.2 * ROWS + p.1) = CellStatus.past)
    ∧ (wp < 0 →
        ∀ p ∈ gridCells cfg, cellStatus wp wp (p.2 * ROWS + p.1) = CellStatus.future) := by
  refine ⟨?_, fun h1 h2 => ?_, fun h p hp => ?_, fun h p hp => ?_⟩
  · rw [currentCells_eq]
    split
    · simp
    · simp
  · rw [currentCells_eq, if_pos ⟨h1, h2⟩]
    simp
  · rcases p with ⟨r, c⟩
    simp only [gridCells, Finset.mem_product, Finset.mem_range] at hp
    show cellStatus wp wp (c * ROWS + r) = CellStatus.past
    have hlt : ((c * ROWS + r : Nat) : Int) < wp := by
      have hbound : ((c * ROWS + r : Nat) : Int)
          < (ROWS : Int) * (COLS cfg : Int) := by
        have h1 := hp.1
        have h2 := hp.2
        unfold ROWS at h1 ⊢
        push_cast
        omega
      exact lt_of_lt_of_le hbound h
    unfold cellStatus
    rw [if_pos hlt]
  · unfold cellStatus
    have hge : (0 : Int) ≤ ((p.2 * ROWS + p.1 : Nat) : Int) := Int.natCast_nonneg _
    rw [if_neg (by omega), if_neg (by omega)]

theorem claim_current_cell_uniqueness_witness :
    ((0 : Int) ≤ 0 ∧ (0 : Int) < (ROWS : Int) * (COLS CONFIG : Int))
    ∧ (currentCells CONFIG 0).card = 1 :=
  ⟨⟨by decide, by decide⟩,
    (claim_current_cell_uniqueness CONFIG 0).2.1 (by decide) (by decide)⟩

/-- C4: if the birthdate is Feb 29 and the year of the anniversary being
constructed (today's year, or the previous year when today precedes this
year's anniversary) is not a leap year, the anniversary date is built with
day 28 instead, and the result is a valid date (the computation completes
without raising). -/
theorem claim_leap_day_anniversary (b t : Date) (hb : dateValid b)
    (ht : dateValid t) (hm : b.month = 2) (hd : b.day = 29) :
    (isLeap t.year = false →
        this_year_birthday b t = ⟨t.year, 2, 28⟩
        ∧ dateValid (this_year_birthday b t))
    ∧ (2 ≤ t.year → isLeap (t.year - 1) = false →
        annivCode b (t.year - 1) = ⟨t.year - 1, 2, 28⟩
        ∧ dateValid (annivCode b (t.year - 1))) := by
  constructor
  · intro hL
    have he := annivCode_eq b t.year hb ht.1 ht.2.1
    constructor
    · unfold this_year_birthday
      rw [he]
      simp [hm, hd, hL]
    · exact annivCode_valid b t.year hb ht.1 ht.2.1
  · intro h2 hL
    have hy9 : t.year - 1 ≤ 9999 := by have := ht.2.1; omega
    have he := annivCode_eq b (t.year - 1) hb (by omega) hy9
    exact ⟨by rw [he]; simp [hm, hd, hL],
      annivCode_valid b (t.year - 1) hb (by omega) hy9⟩

theorem claim_leap_day_anniversary_witness :
    (dateValid ⟨2004, 2, 29⟩ ∧ dateValid ⟨2025, 6, 1⟩ ∧ isLeap 2025 = false)
    ∧ this_year_birthday ⟨2004, 2, 29⟩ ⟨2025, 6, 1⟩ = ⟨2025, 2, 28⟩ :=
  ⟨⟨by decide, by decide, by decide⟩,
    ((claim_leap_day_anniversary ⟨2004, 2, 29⟩ ⟨2025, 6, 1⟩ (by decide) (by decide)
        rfl rfl).1 (by decide)).1⟩

/-- C5: for every configuration, the computed grid pixel dimensions satisfy
`grid_width = cols*(cell_size+cell_gap) - cell_gap` and
`grid_height = rows*(cell_size+cell_gap) - cell_gap`. -/
theorem claim_grid_dimensions (cfg : Config) :
    grid_w cfg = (COLS cfg : Int) * ((cfg.CELL_SIZE : Int) + (cfg.CELL_GAP : Int))
        - (cfg.CELL_GAP : Int)
    ∧ grid_h cfg = (ROWS : Int) * ((cfg.CELL_SIZE : Int) + (cfg.CELL_GAP : Int))
        - (cfg.CELL_GAP : Int) :=
  ⟨rfl, rfl⟩

/-- C6 counterexample: the concrete run performs no remove operation at all,
so no pre-existing file at the output path is removed before saving; the
claim's removal step does not exist in the code. -/
theorem claim_output_sink_remove_counterexample :
    ((mainFsTrace CONFIG).any fun op =>
      match op with
      | FsOp.remove _ => true
      | _ => false) = false := rfl

/-- C6 (amended): before saving, the output sink creates the output path's
parent directories if absent (`makedirs` with `exist_ok=True` precedes the
save in the trace); it performs no removal of a pre-existing file — the save
call itself overwrites the path in place. -/
theorem claim_output_sink_behavior (cfg : Config) :
    ∃ i j : Nat, i < j
      ∧ (mainFsTrace cfg)[i]? = some (FsOp.makedirs (dirname cfg.OUTPUT_PATH) true)
      ∧ (mainFsTrace cfg)[j]? = some (FsOp.savePng cfg.OUTPUT_PATH)
      ∧ ((mainFsTrace cfg).any fun op =>
          match op with
          | FsOp.remove _ => true
          | _ => false) = false :=
  ⟨0, 1, Nat.zero_lt_one, rfl, rfl, rfl⟩

/-- The two AppleScript command strings are never equal (their fixed parts
have different lengths). -/
theorem systemEventsScript_ne_finderScript (p : String) :
    systemEventsScript p ≠ finderScript p := by
  intro h
  have h' := congrArg String.length h
  unfold finderScript systemEventsScript at h'
  rw [String.length_append, String.length_append, String.length_append,
    String.length_append] at h'
  rw [show ("tell application \"Finder\" to set desktop picture to POSIX file \"").length
      = 64 from rfl,
    show ("tell application \"System Events\" to tell every desktop to set picture to \"").length
      = 74 from rfl] at h'
  omega

/-- C7: when background-setting is enabled, the primary OS command is
invoked with the absolute output path; the fallback command is invoked iff
the primary returned non-zero; if both return non-zero, the
manual-instruction messages (including the file path) are printed; and the
step always runs to completion, ending in a console message. -/
theorem claim_wallpaper_step (abs_path : String) (rc1 rc2 : Int) :
    Event.runOsascript (finderScript abs_path) ∈ wallpaperStep abs_path rc1 rc2
    ∧ (Event.runOsascript (systemEventsScript abs_path)
          ∈ wallpaperStep abs_path rc1 rc2 ↔ rc1 ≠ 0)
    ∧ (rc1 ≠ 0 → rc2 ≠ 0 →
        Event.printMsg
            ("Could not auto-set wallpaper — set it manually in System Settings > Wallpaper")
            ∈ wallpaperStep abs_path rc1 rc2
          ∧ Event.printMsg ("File is at: " ++ abs_path)
            ∈ wallpaperStep abs_path rc1 rc2)
    ∧ ∃ m, (wallpaperStep abs_path rc1 rc2).getLast? = some (Event.printMsg m) := by
  refine ⟨List.mem_cons_self _ _, ⟨fun hmem => ?_, fun h1 => ?_⟩,
    fun h1 h2 => ?_, ?_⟩
  · intro h0
    rw [wallpaperStep, if_pos h0] at hmem
    simp only [List.mem_cons, List.not_mem_nil, or_false] at hmem
    rcases hmem with h | h
    · exact systemEventsScript_ne_finderScript abs_path (Event.runOsascript.inj h)
    · cases h
  · rw [wallpaperStep, if_neg h1]
    exact List.mem_cons_of_mem _ (List.mem_cons_self _ _)
  · rw [wallpaperStep, if_neg h1]
    constructor
    · exact List.mem_cons_of_mem _ (List.mem_cons_of_mem _ (by
        rw [if_neg h2]; exact List.mem_cons_self _ _))
    · exact List.mem_cons_of_mem _ (List.mem_cons_of_mem _ (by
        rw [if_neg h2]
        exact List.mem_cons_of_mem _ (List.mem_cons_self _ _)))
  · unfold wallpaperStep
    by_cases h1 : rc1 = 0
    · rw [if_pos h1]
      exact ⟨"Wallpaper set.", rfl⟩
    · rw [if_neg h1]
      by_cases h2 : rc2 = 0
      · rw [if_pos h2]
        exact ⟨"Wallpaper set.", rfl⟩
      · rw [if_neg h2]
        exact ⟨"File is at: " ++ abs_path, rfl⟩

theorem claim_wallpaper_step_witness :
    ((1 : Int) ≠ 0 ∧ (2 : Int) ≠ 0)
    ∧ Event.printMsg ("File is at: " ++ "/tmp/life.png")
        ∈ wallpaperStep ("/tmp/life.png") 1 2 :=
  ⟨⟨by decide, by decide⟩,
    ((claim_wallpaper_step ("/tmp/life.png") 1 2).2.2.1 (by decide) (by decide)).2⟩

/-- C8: for every pair of valid dates with `today ≥ birthdate`,
`weeks_lived = floor((today - birthdate) in days / 7) ≥ 0` and
`grid_weeks_past ≥ 0`. -/
theorem claim_week_counts_nonneg (b t : Date) (hb : dateValid b)
    (ht : dateValid t) (hle : dateLe b t = true) :
    0 ≤ weeks_lived b t ∧ 0 ≤ weeks_past b t := by
  constructor
  · have := toordinal_le_of_dateLe hb ht hle
    unfold weeks_lived
    rw [Int.fdiv_eq_ediv _ (by norm_num)]
    omega
  · have ha := age_nonneg b t hb ht hle
    have hw := week_of_year_nonneg b t hb ht hle
    unfold weeks_past
    rw [show ((ROWS : Nat) : Int) = 52 from rfl]
    omega

theorem claim_week_counts_nonneg_witness :
    (dateValid ⟨2005, 4, 6⟩ ∧ dateValid ⟨2025, 4, 6⟩
      ∧ dateLe ⟨2005, 4, 6⟩ ⟨2025, 4, 6⟩ = true)
    ∧ 0 ≤ weeks_lived ⟨2005, 4, 6⟩ ⟨2025, 4, 6⟩ :=
  ⟨⟨by decide, by decide, by decide⟩,
    (claim_week_counts_nonneg _ _ (by decide) (by decide) (by decide)).1⟩

/-- C9: two runs with the same configuration and the same current date (and
the same resolved fonts) produce the identical sequence of image-drawing
commands: the image part of the run does not depend on the rest of the
environment (subprocess results, path expansion), only on the configuration
and today's date. -/
theorem claim_image_trace_deterministic (cfg : Config) (t : Date)
    (e1 e2 : RunEnv) (h : e1.fonts = e2.fonts) :
    (mainRun cfg t e1).1 = (mainRun cfg t e2).1 := by
  show mainImage cfg t e1.fonts = mainImage cfg t e2.fonts
  rw [h]

theorem claim_image_trace_deterministic_witness :
    (RunEnv.fonts ⟨fun _ => 0, fun s => s, 0, 0⟩
        = RunEnv.fonts ⟨fun _ => 0, fun _ => "", 1, 5⟩)
    ∧ (mainRun CONFIG ⟨2025, 4, 6⟩ ⟨fun _ => 0, fun s => s, 0, 0⟩).1
        = (mainRun CONFIG ⟨2025, 4, 6⟩ ⟨fun _ => 0, fun _ => "", 1, 5⟩).1 :=
  ⟨rfl, claim_image_trace_deterministic CONFIG ⟨2025, 4, 6⟩ _ _ rfl⟩

/-- C10: for every pair of valid dates with `today ≥ birthdate`,
`0 ≤ week_of_year ≤ 52`; and for some dates (e.g. the day before the 21st
anniversary of the 2005-04-06 birthdate, 364 days after the last birthday)
`week_of_year = 52`, making `grid_weeks_past = (age+1)*52`, so the unique
current cell sits at row 0 of the following year's column `age+1` rather
than within the 0..51 week range of the current year's column. -/
theorem claim_week_of_year_rollover :
    (∀ b t : Date, dateValid b → dateValid t → dateLe b t = true →
        0 ≤ week_of_year b t ∧ week_of_year b t ≤ 52)
    ∧ week_of_year ⟨2005, 4, 6⟩ ⟨2026, 4, 5⟩ = 52
    ∧ weeks_past ⟨2005, 4, 6⟩ ⟨2026, 4, 5⟩
        = (age ⟨2005, 4, 6⟩ ⟨2026, 4, 5⟩ + 1) * 52
    ∧ currentCells CONFIG (weeks_past ⟨2005, 4, 6⟩ ⟨2026, 4, 5⟩)
        = {(0, (age ⟨2005, 4, 6⟩ ⟨2026, 4, 5⟩).toNat + 1)} := by
  refine ⟨fun b t hb ht hle =>
      ⟨week_of_year_nonneg b t hb ht hle, week_of_year_le_52 b t hb ht hle⟩,
    by decide, by decide, ?_⟩
  have hwp : weeks_past ⟨2005, 4, 6⟩ ⟨2026, 4, 5⟩ = 1092 := by decide
  have hage : age ⟨2005, 4, 6⟩ ⟨2026, 4, 5⟩ = 20 := by decide
  rw [hwp, hage, currentCells_eq]
  decide

theorem claim_week_of_year_rollover_witness :
    (dateValid ⟨2005, 4, 6⟩ ∧ dateValid ⟨2026, 4, 5⟩
      ∧ dateLe ⟨2005, 4, 6⟩ ⟨2026, 4, 5⟩ = true)
    ∧ week_of_year ⟨2005, 4, 6⟩ ⟨2026, 4, 5⟩ ≤ 52 :=
  ⟨⟨by decide, by decide, by decide⟩,
    (claim_week_of_year_rollover.1 _ _ (by decide) (by decide) (by decide)).2⟩

end Fuse
